import Mathlib

/-
Verification of the `bar` status-bar program.

The program aggregates line-oriented events from a window manager and a
telemetry daemon, keeps typed tracker state (desktop occupancy/focus,
battery, clock, cpu), and renders a markup line for a bar renderer.

Strings are modelled as `List Char`.  Rust's `find`/`rfind` return byte
indices that are only ever used to cut the string at the boundaries of
the characters they locate, so character indices are an observationally
equivalent model.  Fallible operations (`unwrap`, out-of-range slices)
are modelled with `Option`: `none` is a panic of the original program.
-/

abbrev Str := List Char

/-- Index of the first character satisfying `p` (Rust `str::find`). -/
def findIdxO (p : Char → Bool) : Str → Option Nat
  | [] => none
  | c :: cs => if p c then some 0 else (findIdxO p cs).map (· + 1)

/-- Index of the last character satisfying `p` (Rust `str::rfind`). -/
def rfindIdxO (p : Char → Bool) (s : Str) : Option Nat :=
  (findIdxO p s.reverse).map (fun i => s.length - 1 - i)

/-- Substring `s[a..b]` (Rust range indexing of a string, end exclusive). -/
def strSlice (s : Str) (a b : Nat) : Str :=
  (s.drop a).take (b - a)

/-- Leading/trailing-whitespace removal (Rust `str::trim`; `Char.isWhitespace`
covers the ASCII whitespace appearing in the program's event streams). -/
def trim (s : Str) : Str :=
  ((s.dropWhile Char.isWhitespace).reverse.dropWhile Char.isWhitespace).reverse

/-- Accumulator-based splitter behind `splitWS`; `acc` holds the current word
reversed. -/
def splitWSAux : Str → Str → List Str
  | [], acc => if acc.isEmpty then [] else [acc.reverse]
  | c :: cs, acc =>
    if c.isWhitespace then
      if acc.isEmpty then splitWSAux cs [] else acc.reverse :: splitWSAux cs []
    else splitWSAux cs (c :: acc)

/-- Whitespace-separated words, empties skipped (Rust `str::split_whitespace`). -/
def splitWS (s : Str) : List Str := splitWSAux s []

/-- Decimal digit character for `n ≤ 9`. -/
def digitChar (n : Nat) : Char := Char.ofNat (48 + n)

/-- Value of a string of decimal digits. -/
def digitsToNat (s : Str) : Nat := s.foldl (fun a c => 10 * a + (c.toNat - 48)) 0

/-- Fuelled decimal printer: at fuel `f + 1`, prints `n` in base 10. -/
def natDigitsAux : Nat → Nat → Str
  | 0, _ => []
  | f + 1, n =>
    if n < 10 then [digitChar n] else natDigitsAux f (n / 10) ++ [digitChar (n % 10)]

/-- Decimal representation of `n` (Rust `{}` formatting of an unsigned integer). -/
def natToStr (n : Nat) : Str := natDigitsAux (n + 1) n

/-- Zero-padding to width 3 (Rust `{:03}` formatting). -/
def pad3 (n : Nat) : Str :=
  List.replicate (3 - (natToStr n).length) '0' ++ natToStr n

/-- Rust `usize::from_str`: optional leading `+`, then one or more decimal
digits.  Values are unbounded `Nat`s; `usize` overflow is not modelled (all
values arising in the claims are tiny). -/
def parseUsize (s : Str) : Option Nat :=
  let t := match s with | '+' :: r => r | _ => s
  if !t.isEmpty && t.all Char.isDigit then some (digitsToNat t) else none

/-- Rust `f32::from_str`, restricted to plain decimal literals: optional sign,
digits with an optional fractional part.  The exact `f32` rounding, exponent
forms and `inf`/`NaN` are not modelled; no claim inspects a parsed frequency,
only whether parsing succeeds on the decimal events the daemon emits. -/
def parseF32 (s : Str) : Option ℚ :=
  let (sg, t) : ℚ × Str :=
    match s with
    | '+' :: r => (1, r)
    | '-' :: r => (-1, r)
    | r => (1, r)
  match t.splitOn '.' with
  | [ip] =>
    if !ip.isEmpty && ip.all Char.isDigit then some (sg * digitsToNat ip) else none
  | [ip, fp] =>
    if (ip.all Char.isDigit && fp.all Char.isDigit) && (!ip.isEmpty || !fp.isEmpty)
    then some (sg * ((digitsToNat ip : ℚ) + (digitsToNat fp : ℚ) / (10 ^ fp.length)))
    else none
  | _ => none

/-
Embedding of `src/bar/data.rs`.
-/

/-- Desktop occupancy/focus flags (`data.rs` `Desktop`). -/
structure Desktop where
  occupied : Bool
  focused : Bool
deriving DecidableEq, Repr

/-- Status-character mapping (`data.rs` `parse_status`). -/
def parse_status (status : Char) : Bool × Bool :=
  match status with
  | 'o' => (true, false)
  | 'O' => (true, true)
  | 'f' => (false, false)
  | 'F' => (false, true)
  | _ => (false, false)

/-- Window-manager tracker state (`data.rs` `WindowManager`). -/
structure WindowManager where
  dtops : List Desktop
deriving DecidableEq, Repr

/-- Ownership test of the window-manager tracker (`WindowManager::is_data`). -/
def WindowManager.is_data (data : Str) : Bool :=
  "WM".toList.isPrefixOf data

/-- Loop body of `WindowManager::consume`: apply the split status list
positionally, overwriting index `i` when it exists and pushing otherwise;
`none` models the `chars.next().unwrap()` panic on an empty segment. -/
def applyStatuses : List Desktop → Nat → List Str → Option (List Desktop)
  | dts, _, [] => some dts
  | dts, i, seg :: rest =>
    match seg with
    | [] => none
    | c :: _ =>
      let (occupied, focused) := parse_status c
      let dts' :=
        if i < dts.length then dts.set i ⟨occupied, focused⟩
        else dts ++ [⟨occupied, focused⟩]
      applyStatuses dts' (i + 1) rest

/-- `WindowManager::consume`: the substring between the first and last `:` is
the `:`-separated status list.  `none` models the `find`/`rfind` unwrap panics
and the out-of-range indexing panic when `start > end`. -/
def WindowManager.consume (wm : WindowManager) (data : Str) : Option WindowManager :=
  match findIdxO (· = ':') data, rfindIdxO (· = ':') data with
  | some st, some en =>
    if st + 1 ≤ en then
      (applyStatuses wm.dtops 0 ((strSlice data (st + 1) en).splitOn ':')).map WindowManager.mk
    else none
  | _, _ => none

/-- Folding `WindowManager::consume` over a line sequence. -/
def WindowManager.consumeSeq (wm : WindowManager) : List Str → Option WindowManager
  | [] => some wm
  | l :: ls =>
    match wm.consume l with
    | none => none
    | some wm' => wm'.consumeSeq ls

/-- Battery status enum (`data.rs` `BatStatus`). -/
inductive BatStatus where
  | Charging
  | Discharging
  | Full
  | Empty
  | Unknown
deriving DecidableEq, Repr

/-- `impl From<char> for BatStatus`. -/
def BatStatus.fromChar (c : Char) : BatStatus :=
  match c with
  | 'C' => BatStatus.Charging
  | 'D' => BatStatus.Discharging
  | 'F' => BatStatus.Full
  | 'E' => BatStatus.Empty
  | _ => BatStatus.Unknown

/-- Battery tracker state (`data.rs` `Battery`). -/
structure Battery where
  pct : Nat
  time : Str
  status : BatStatus
deriving DecidableEq, Repr

/-- `impl Default for Battery`. -/
def Battery.default : Battery :=
  { pct := 0, time := "0:00".toList, status := BatStatus.Unknown }

/-- Clock tracker state (`data.rs` `DateTime`). -/
structure DateTime where
  date : Str
  time : Str
deriving DecidableEq, Repr

/-- `impl Default for DateTime`. -/
def DateTime.default : DateTime :=
  { date := "Mon Jan 1".toList, time := "00:00".toList }

/-- Cpu tracker state (`data.rs` `Cpu`); the `[f32; 4]` and `[usize; 4]`
arrays are length-4 lists. -/
structure Cpu where
  temp : Nat
  freq : List ℚ
  usage : List Nat
deriving DecidableEq, Repr

/-- `impl Default for Cpu`. -/
def Cpu.default : Cpu :=
  { temp := 0, freq := [0, 0, 0, 0], usage := [0, 0, 0, 0] }

/-- System tracker state (`data.rs` `System`). -/
structure System where
  bat : Battery
  datetime : DateTime
  cpu : Cpu
deriving DecidableEq, Repr

/-- Default `System` state, as built by `System::new`. -/
def System.default : System :=
  { bat := Battery.default, datetime := DateTime.default, cpu := Cpu.default }

/-- Loop body of `data.rs` `parse_bat_time`: a token containing `h`
contributes everything before the last `h`; otherwise a token containing `m`
contributes `:` plus the text before the last `m` (trimmed), with a single
`0` pushed first when that text is shorter than two characters. -/
def batTimeStep (time : Str) (elt : Str) : Str :=
  match rfindIdxO (· = 'h') elt with
  | some hpos => time ++ elt.take hpos
  | none =>
    match rfindIdxO (· = 'm') elt with
    | some mpos =>
      let mstr := trim (elt.take mpos)
      time ++ [':'] ++ (if mstr.length < 2 then ['0'] else []) ++ mstr
    | none => time

/-- `data.rs` `parse_bat_time`: fold the loop body over the
whitespace-separated tokens of the value. -/
def parse_bat_time (data : Str) : Str :=
  (splitWS data).foldl batTimeStep []

/-- Percentage extraction of the `BAT_STATUS` branch of `System::consume`:
the substring between the first numeric character and the last `%`, trimmed
and parsed.  `none` models the unwrap panics (no digit, no `%`, strSlice with
`start > end`, failed parse).  `Char.isDigit` stands for `char::is_numeric`,
whose non-ASCII numerals never occur in the telemetry stream. -/
def batPctOfVal (val : Str) : Option Nat :=
  match findIdxO Char.isDigit val, rfindIdxO (· = '%') val with
  | some start, some stop =>
    if start ≤ stop then parseUsize (trim (strSlice val start stop)) else none
  | _, _ => none

/-- Ownership test of the system tracker (`System::is_data`): any line that
does not belong to the window manager. -/
def System.is_data (data : Str) : Bool :=
  !("WM".toList.isPrefixOf data)

/-- Loop body of the `CPU`/`CPU_FREQ` branches of `System::consume`:
`val.split_whitespace().enumerate().take(4)` with `arr[i] = parse(tok)`,
where a failed parse is an unwrap panic. -/
def setParsed {α : Type} (parse : Str → Option α) :
    List α → Nat → List Str → Option (List α)
  | arr, _, [] => some arr
  | arr, i, tok :: rest =>
    match parse tok with
    | none => none
    | some v => setParsed parse (arr.set i v) (i + 1) rest

/-- `System::consume`: split the line at the first `=`, trim key and value,
and dispatch on the key.  `none` models the unwrap panics. -/
def System.consume (sys : System) (data : Str) : Option System :=
  match findIdxO (· = '=') data with
  | none => none
  | some mid =>
    let key := trim (data.take mid)
    let val := trim (data.drop (mid + 1))
    if key = "BAT_TIME".toList then
      some { sys with bat := { sys.bat with time := parse_bat_time val } }
    else if key = "BAT_STATUS".toList then
      match val, batPctOfVal val with
      | c :: _, some n =>
        some { sys with bat := { pct := n, time := sys.bat.time, status := BatStatus.fromChar c } }
      | _, _ => none
    else if key = "TIME".toList then
      some { sys with datetime := { sys.datetime with time := val } }
    else if key = "DATE".toList then
      some { sys with datetime := { sys.datetime with date := val } }
    else if key = "TEMP".toList then
      match parseUsize val with
      | some n => some { sys with cpu := { sys.cpu with temp := n } }
      | none => none
    else if key = "CPU".toList then
      match setParsed parseUsize sys.cpu.usage 0 ((splitWS val).take 4) with
      | some u => some { sys with cpu := { sys.cpu with usage := u } }
      | none => none
    else if key = "CPU_FREQ".toList then
      match setParsed parseF32 sys.cpu.freq 0 ((splitWS val).take 4) with
      | some f => some { sys with cpu := { sys.cpu with freq := f } }
      | none => none
    else some sys

/-- Folding `System::consume` over a line sequence. -/
def System.consumeSeq (sys : System) : List Str → Option System
  | [] => some sys
  | l :: ls =>
    match sys.consume l with
    | none => none
    | some sys' => sys'.consumeSeq ls

/-- Key= `BAT_STATUS` percentage reported by one line, if any: the value
`System::consume` would store in `bat.pct` for that line. -/
def pctOfLine (data : Str) : Option Nat :=
  match findIdxO (· = '=') data with
  | none => none
  | some mid =>
    if trim (data.take mid) = "BAT_STATUS".toList then batPctOfVal (trim (data.drop (mid + 1)))
    else none

/-
Fragment rendering: the `Format` implementations of `data.rs`, producing the
byte fragment each tracker writes through a `Formatter`.
-/

/-- `impl Format for Desktop`: a styled glyph per desktop.  `Color::Violet as
u32` prints as `6c71c4`; the braces of the markup are literal text. -/
def Desktop.fmtStr (d : Desktop) : Str :=
  if d.focused && d.occupied then "%\x7bF#6c71c4\x7d  %\x7bF-\x7d".toList
  else if d.focused then "%\x7bF#6c71c4\x7d  %\x7bF-\x7d".toList
  else if d.occupied then "  ".toList
  else "  ".toList

/-- `impl Format for WindowManager`: each desktop's glyph in order. -/
def WindowManager.fmtStr (wm : WindowManager) : Str :=
  (wm.dtops.map Desktop.fmtStr).flatten

/-- `impl Format for DateTime`: `"{} {} "` of date and time. -/
def DateTime.fmtStr (dt : DateTime) : Str :=
  dt.date ++ " ".toList ++ dt.time ++ " ".toList

/-- `impl Format for Battery`: `" bat: {:03}"` of the percentage. -/
def Battery.fmtStr (b : Battery) : Str :=
  " bat: ".toList ++ pad3 b.pct

/-
Embedding of `src/bar/bar.rs`: the element registry.
-/

/-- Zone of a position (`bar.rs` `Align`). -/
inductive Align where
  | Left
  | Center
  | Right
deriving DecidableEq, Repr

/-- Rank of an `Align` in its derived `Ord` (declaration order). -/
def Align.toNat : Align → Nat
  | .Left => 0
  | .Center => 1
  | .Right => 2

/-- Registry key (`bar.rs` `Position`). -/
structure Position where
  align : Align
  slot : Nat
deriving DecidableEq, Repr

/-- `Position::partial_cmp` (always `Some`, so directly an `Ordering`):
compare zones first, slots within a zone. -/
def Position.cmpPos (p q : Position) : Ordering :=
  if q.align.toNat < p.align.toNat then .gt
  else if p.align = q.align then compare p.slot q.slot
  else .lt

/-- Strict order on positions induced by `Position::cmp`. -/
def posLt (p q : Position) : Bool :=
  match p.cmpPos q with
  | .lt => true
  | _ => false

/-- `Position::center()`. -/
def Position.center : Position := { align := Align.Center, slot := 0 }

/-- `Position::right()`. -/
def Position.right : Position := { align := Align.Right, slot := 0 }

/-- Bound test of `BTreeMap::range`: `lo` is an included lower bound,
`hi` an excluded upper bound, `none` is unbounded. -/
def inRange (lo hi : Option Position) (p : Position) : Bool :=
  (match lo with
   | none => true
   | some l => !posLt p l) &&
  (match hi with
   | none => true
   | some h => posLt p h)

/-- `BTreeMap::range` over the registry: the entries within the bounds, in
ascending key order.  The registry itself is its ascending entry list. -/
def rangeElts (elts : List (Position × Str)) (lo hi : Option Position) :
    List (Position × Str) :=
  elts.filter (fun e => inRange lo hi e.1)

/-- `Bar::flush`: the bytes written for one composed line — each zone marker,
then that zone's fragments in key order, then the line terminator. -/
def Bar.flush (elts : List (Position × Str)) : Str :=
  "%\x7bl\x7d".toList
    ++ ((rangeElts elts none (some Position.center)).map Prod.snd).flatten
    ++ "%\x7bc\x7d".toList
    ++ ((rangeElts elts (some Position.center) (some Position.right)).map Prod.snd).flatten
    ++ "%\x7br\x7d".toList
    ++ ((rangeElts elts (some Position.right) none).map Prod.snd).flatten
    ++ ['\n']

/-- Fragments of one zone, in registry order. -/
def zoneFrags (elts : List (Position × Str)) (z : Align) : Str :=
  ((elts.filter (fun e => decide (e.1.align = z))).map Prod.snd).flatten

/-
Embedding of the dispatch loop of `src/main.rs` (`execute`).
-/

/-- Modelled from the spec: the `write_into` method used by `execute` in
`main.rs` is not defined under `src/`; per the spec's dispatch-loop section it
renders each tracker's fragment into the output buffer, clock then battery
then desktop summary, followed by the line terminator. -/
def renderLine (sys : System) (wm : WindowManager) : Str :=
  sys.datetime.fmtStr ++ sys.bat.fmtStr ++ wm.fmtStr ++ ['\n']

/-- One iteration of the dispatch loop: route the line to the tracker whose
ownership test accepts it, then emit the rendered output line. -/
def stepLine : WindowManager × System → Str → Option ((WindowManager × System) × Str)
  | (wm, sys), line =>
    if WindowManager.is_data line then
      (wm.consume line).map (fun wm' => ((wm', sys), renderLine sys wm'))
    else if System.is_data line then
      (sys.consume line).map (fun sys' => ((wm, sys'), renderLine sys' wm))
    else some ((wm, sys), renderLine sys wm)

/-- The dispatch loop over a list of input lines, collecting the output lines. -/
def runLines : WindowManager × System → List Str → Option ((WindowManager × System) × List Str)
  | st, [] => some (st, [])
  | st, line :: rest =>
    match stepLine st line with
    | none => none
    | some (st', out) => (runLines st' rest).map (fun r => (r.1, out :: r.2))

/-
Supporting lemmas.
-/

lemma natDigitsAux_mem_digit :
    ∀ f n c, c ∈ natDigitsAux f n → 48 ≤ c.toNat ∧ c.toNat ≤ 57 := by
  intro f
  induction f with
  | zero => intro n c hc; simp [natDigitsAux] at hc
  | succ f ih =>
    intro n c hc
    by_cases h : n < 10
    · simp only [natDigitsAux, if_pos h, List.mem_singleton] at hc
      subst hc
      unfold digitChar
      interval_cases n <;> decide
    · simp only [natDigitsAux, if_neg h, List.mem_append, List.mem_singleton] at hc
      rcases hc with hc | hc
      · exact ih _ _ hc
      · subst hc
        unfold digitChar
        have h10 : n % 10 < 10 := Nat.mod_lt _ (by omega)
        generalize n % 10 = k at h10 ⊢
        interval_cases k <;> decide

lemma natToStr_mem_digit (n : Nat) (c : Char) (hc : c ∈ natToStr n) :
    48 ≤ c.toNat ∧ c.toNat ≤ 57 :=
  natDigitsAux_mem_digit _ _ _ hc

lemma pad3_mem_digit (n : Nat) (c : Char) (hc : c ∈ pad3 n) :
    48 ≤ c.toNat ∧ c.toNat ≤ 57 := by
  unfold pad3 at hc
  rcases List.mem_append.mp hc with hc | hc
  · rcases List.eq_of_mem_replicate hc with rfl; decide
  · exact natToStr_mem_digit _ _ hc

/-
Claim theorems.
-/

/-- C5: the desktop status-character mapping is total, with
`o↦(true,false)`, `O↦(true,true)`, `f↦(false,false)`, `F↦(false,true)` and
every other character mapped to `(false,false)`. -/
theorem c5_thm :
    parse_status 'o' = (true, false) ∧ parse_status 'O' = (true, true) ∧
    parse_status 'f' = (false, false) ∧ parse_status 'F' = (false, true) ∧
    ∀ c : Char, c ∉ (['o', 'O', 'f', 'F'] : List Char) → parse_status c = (false, false) := by
  refine ⟨by decide, by decide, by decide, by decide, ?_⟩
  intro c hc
  unfold parse_status
  split <;> simp_all

/-- Witness for C5 at the unrecognized character `x`. -/
theorem c5_wit : 'x' ∉ (['o', 'O', 'f', 'F'] : List Char) ∧ parse_status 'x' = (false, false) :=
  ⟨by decide, c5_thm.2.2.2.2 'x' (by decide)⟩

/-- C9: the system tracker's ownership test is the exact complement of the
window-manager tracker's (both test the `WM` prefix), so every line is fed to
exactly one tracker and the dispatch loop's discard branch is never taken. -/
theorem c9_thm : ∀ line : Str,
    System.is_data line = !WindowManager.is_data line ∧
    ((WindowManager.is_data line = true ∧ System.is_data line = false) ∨
      (WindowManager.is_data line = false ∧ System.is_data line = true)) := by
  intro line
  refine ⟨rfl, ?_⟩
  cases h : WindowManager.is_data line
  · right
    exact ⟨rfl, by simp [System.is_data, WindowManager.is_data] at h ⊢; exact h⟩
  · left
    exact ⟨rfl, by simp [System.is_data, WindowManager.is_data] at h ⊢; exact h⟩

/-- Counterexample for C7: at percentage 80 the battery fragment is the plain
text `" bat: 080"`; it begins with a space, not a threshold-selected icon, and
contains no icon character at all (the `Icon` glyphs all lie at or above
`U+F000`). -/
theorem c7_cx :
    Battery.fmtStr { pct := 80, time := "0:00".toList, status := BatStatus.Unknown }
        = " bat: 080".toList ∧
    (" bat: 080".toList : Str).head? = some ' ' ∧
    ∀ c ∈ (" bat: 080".toList : Str), c.toNat < 0xf000 := by
  refine ⟨by decide, by decide, by decide⟩

/-- C7 (amended): for every battery state the rendered fragment is the literal
text `" bat: "` followed by the percentage zero-padded to width 3; no
threshold-selected icon is emitted. -/
theorem c7_thm : ∀ b : Battery,
    Battery.fmtStr b = " bat: ".toList ++ pad3 b.pct ∧
    ∀ c ∈ Battery.fmtStr b, c.toNat < 0xf000 := by
  intro b
  refine ⟨rfl, ?_⟩
  intro c hc
  unfold Battery.fmtStr at hc
  rcases List.mem_append.mp hc with hc | hc
  · fin_cases hc <;> decide
  · have := pad3_mem_digit _ _ hc
    omega

/-- Input lines of the end-to-end scenario of C1. -/
def c1lines : List Str :=
  ["WM:oF:".toList, "BAT_STATUS= D 80%".toList, "DATE = Tue Jan 2".toList,
    "TIME = 09:30".toList]

/-- Final rendered output line of the end-to-end scenario of C1. -/
def c1out : Str := "Tue Jan 2 09:30  bat: 080  \n".toList

/-- Counterexample for C1: `"WM:oF:"` holds a single status segment `oF`,
whose first character `o` maps to occupied/unfocused, so after the four lines
the tracker holds exactly one desktop — occupied and unfocused — not the
claimed pair of an unoccupied-unfocused and a focused-occupied desktop; the
final output contains no unoccupied glyph `U+F3A6` at all. -/
theorem c1_cx :
    (runLines (⟨[]⟩, System.default) c1lines).map (fun r => (r.1.1.dtops, r.2.getLast?))
        = some ([⟨true, false⟩], some c1out) ∧
    '' ∉ c1out := by
  refine ⟨by decide, by decide⟩

/-- C1 (amended): feeding the four lines in order from the default states
renders a final line whose desktop summary is the single occupied-unfocused
glyph, whose battery fragment shows `80` (as `080`), and whose clock fragment
shows `Tue Jan 2` and `09:30`. -/
theorem c1_thm :
    (runLines (⟨[]⟩, System.default) c1lines).map (fun r => (r.1, r.2.getLast?)) =
      some (((⟨[⟨true, false⟩]⟩ : WindowManager),
        { bat := { pct := 80, time := "0:00".toList, status := BatStatus.Discharging },
          datetime := { date := "Tue Jan 2".toList, time := "09:30".toList },
          cpu := Cpu.default }), some c1out) ∧
    "80".toList <:+: c1out ∧ "Tue Jan 2".toList <:+: c1out ∧
    "09:30".toList <:+: c1out ∧ "  ".toList <:+: c1out := by
  refine ⟨by decide, by decide, by decide, by decide, by decide⟩

lemma findIdxO_append (p : Char → Bool) (a b : Str) :
    findIdxO p (a ++ b) =
      match findIdxO p a with
      | some i => some i
      | none => (findIdxO p b).map (· + a.length) := by
  induction a with
  | nil =>
    simp only [List.nil_append, findIdxO, List.length_nil]
    cases hb : findIdxO p b <;> simp
  | cons c cs ih =>
    simp only [List.cons_append, findIdxO]
    by_cases h : p c
    · simp [h]
    · simp only [List.append_eq]
      rw [if_neg h, if_neg h, ih]
      cases hcs : findIdxO p cs
      · cases hb : findIdxO p b
        · simp
        · simp only [Option.map_some, Option.map_none, Option.map_map, Function.comp_apply,
            List.length_cons]
          congr 1
      · simp

lemma keyval_split (k v : Str) (hk : findIdxO (· = '=') k = none) :
    findIdxO (· = '=') (k ++ '=' :: v) = some k.length ∧
    (k ++ '=' :: v).take k.length = k ∧
    (k ++ '=' :: v).drop (k.length + 1) = v := by
  refine ⟨?_, List.take_left .., ?_⟩
  · rw [findIdxO_append (· = '=') k ('=' :: v), hk]
    simp [findIdxO]
  · have hassoc : k ++ '=' :: v = (k ++ ['=']) ++ v := by simp
    have hlen : (k ++ ['=']).length = k.length + 1 := by simp
    rw [hassoc, ← hlen]
    exact List.drop_left ..

/-- C4: consuming a `BAT_STATUS` line sets the status from the value's first
character via `C↦Charging, D↦Discharging, F↦Full, E↦Empty, else↦Unknown`
(`BatStatus.fromChar`) and the percentage to the parsed substring between the
first digit and the last `%`; in particular value `"D  42%"` yields
`Discharging` and `42`. -/
theorem c4_thm :
    (∀ (sys : System) (v : Str) (c : Char) (r : Str) (i j n : Nat),
      v = c :: r → trim v = v →
      findIdxO Char.isDigit v = some i → rfindIdxO (· = '%') v = some j → i ≤ j →
      parseUsize (trim (strSlice v i j)) = some n →
      System.consume sys ("BAT_STATUS".toList ++ '=' :: v) =
        some { sys with
          bat := { pct := n, time := sys.bat.time, status := BatStatus.fromChar c } }) ∧
    System.consume System.default "BAT_STATUS=D  42%".toList =
      some { System.default with
        bat := { pct := 42, time := Battery.default.time,
                 status := BatStatus.Discharging } } := by
  constructor
  · intro sys v c r i j n hv htrim hfind hrfind hij hparse
    obtain ⟨h1, h2, h3⟩ := keyval_split "BAT_STATUS".toList v (by decide)
    unfold System.consume
    rw [h1]
    simp only [h2, h3, htrim]
    rw [show trim "BAT_STATUS".toList = "BAT_STATUS".toList from by decide]
    rw [if_neg (by decide), if_pos rfl]
    subst hv
    simp only [batPctOfVal, hfind, hrfind, if_pos hij, hparse]
  · decide

/-- Witness for C4 at the value `"C 7%"`. -/
theorem c4_wit :
    ("C 7%".toList = 'C' :: " 7%".toList) ∧ trim "C 7%".toList = "C 7%".toList ∧
    findIdxO Char.isDigit "C 7%".toList = some 2 ∧
    rfindIdxO (· = '%') "C 7%".toList = some 3 ∧ 2 ≤ 3 ∧
    parseUsize (trim (strSlice "C 7%".toList 2 3)) = some 7 ∧
    System.consume System.default ("BAT_STATUS".toList ++ '=' :: "C 7%".toList) =
      some { System.default with
        bat := { pct := 7, time := System.default.bat.time,
                 status := BatStatus.fromChar 'C' } } :=
  ⟨by decide, by decide, by decide, by decide, by decide, by decide,
    c4_thm.1 System.default "C 7%".toList 'C' " 7%".toList 2 3 7 (by decide) (by decide)
      (by decide) (by decide) (by decide) (by decide)⟩

lemma consume_pct (sys sys' : System) (data : Str) (h : sys.consume data = some sys') :
    sys'.bat.pct = sys.bat.pct ∨ pctOfLine data = some sys'.bat.pct := by
  unfold System.consume at h
  unfold pctOfLine
  cases hf : findIdxO (· = '=') data with
  | none => rw [hf] at h; exact absurd h (by simp)
  | some mid =>
    rw [hf] at h
    simp only [] at h
    by_cases hbt : trim (data.take mid) = "BAT_TIME".toList
    · left
      rw [if_pos hbt] at h
      cases h
      rfl
    · rw [if_neg hbt] at h
      by_cases hbs : trim (data.take mid) = "BAT_STATUS".toList
      · rw [if_pos hbs] at h
        simp only []
        rw [if_pos hbs]
        cases hval : trim (data.drop (mid + 1)) with
        | nil => rw [hval] at h; simp at h
        | cons c r =>
          rw [hval] at h
          cases hbp : batPctOfVal (c :: r) with
          | none => rw [hbp] at h; simp at h
          | some n =>
            right
            rw [hbp] at h
            cases h
            rfl
      · left
        rw [if_neg hbs] at h
        split_ifs at h with h3 h4 h5 h6 h7
        · cases h; rfl
        · cases h; rfl
        · cases hp : parseUsize (trim (data.drop (mid + 1))) with
          | none => rw [hp] at h; simp at h
          | some n => rw [hp] at h; cases h; rfl
        · cases hp : setParsed parseUsize sys.cpu.usage 0 ((splitWS (trim (data.drop (mid + 1)))).take 4) with
          | none => rw [hp] at h; simp at h
          | some u => rw [hp] at h; cases h; rfl
        · cases hp : setParsed parseF32 sys.cpu.freq 0 ((splitWS (trim (data.drop (mid + 1)))).take 4) with
          | none => rw [hp] at h; simp at h
          | some u => rw [hp] at h; cases h; rfl
        · cases h; rfl

lemma consumeSeq_pct_bound :
    ∀ (lines : List Str) (sys sys' : System), sys.bat.pct ≤ 100 →
      (∀ l ∈ lines, (pctOfLine l).getD 0 ≤ 100) →
      System.consumeSeq sys lines = some sys' → sys'.bat.pct ≤ 100 := by
  intro lines
  induction lines with
  | nil =>
    intro sys sys' hb _ h
    unfold System.consumeSeq at h
    cases h
    exact hb
  | cons l ls ih =>
    intro sys sys' hb hall h
    unfold System.consumeSeq at h
    cases hc : sys.consume l with
    | none => rw [hc] at h; simp at h
    | some s1 =>
      rw [hc] at h
      have hb1 : s1.bat.pct ≤ 100 := by
        rcases consume_pct sys s1 l hc with he | he
        · omega
        · have hl := hall l (by simp)
          rw [he] at hl
          simpa using hl
      exact ih s1 sys' hb1 (fun x hx => hall x (by simp [hx])) h

/-- Counterexample for C10: the line `"BAT_STATUS=D 500%"` drives the battery
percentage to 500 — the field is whatever number the value reports and is not
confined to 0–100. -/
theorem c10_cx :
    (System.consumeSeq System.default ["BAT_STATUS=D 500%".toList]).map (fun s => s.bat.pct)
        = some 500 ∧ ¬(500 ≤ 100) :=
  ⟨by decide, by decide⟩

/-- C10 (amended): the battery percentage equals the value most recently
parsed from a `BAT_STATUS` line (a natural number, so never negative, but
unbounded above); it stays within 0–100 for every consumed sequence whose
`BAT_STATUS` lines report percentages of at most 100. -/
theorem c10_thm :
    ∀ (lines : List Str) (sys' : System),
      (∀ l ∈ lines, (pctOfLine l).getD 0 ≤ 100) →
      System.consumeSeq System.default lines = some sys' → sys'.bat.pct ≤ 100 :=
  fun lines sys' h1 h2 => consumeSeq_pct_bound lines System.default sys' (by decide) h1 h2

/-- Witness for C10 on the single line `"BAT_STATUS= D 80%"`. -/
theorem c10_wit :
    (∀ l ∈ (["BAT_STATUS= D 80%".toList] : List Str), (pctOfLine l).getD 0 ≤ 100) ∧
    System.consumeSeq System.default ["BAT_STATUS= D 80%".toList] =
      some { bat := { pct := 80, time := "0:00".toList, status := BatStatus.Discharging },
             datetime := DateTime.default, cpu := Cpu.default } ∧
    ({ bat := { pct := 80, time := "0:00".toList, status := BatStatus.Discharging },
       datetime := DateTime.default, cpu := Cpu.default } : System).bat.pct ≤ 100 :=
  ⟨by decide, by decide, c10_thm ["BAT_STATUS= D 80%".toList] _ (by decide) (by decide)⟩

lemma applyStatuses_length :
    ∀ (segs : List Str) (dts : List Desktop) (i : Nat) (dts' : List Desktop),
      applyStatuses dts i segs = some dts' → i ≤ dts.length →
      dts'.length = max dts.length (i + segs.length) := by
  intro segs
  induction segs with
  | nil =>
    intro dts i dts' h hi
    unfold applyStatuses at h
    cases h
    simp only [List.length_nil, Nat.add_zero]
    rw [Nat.max_eq_left hi]
  | cons seg rest ih =>
    intro dts i dts' h hi
    unfold applyStatuses at h
    cases seg with
    | nil => simp at h
    | cons c cr =>
      simp only [] at h
      by_cases hlt : i < dts.length
      · rw [if_pos hlt] at h
        have h2 := ih _ _ _ h (by simp [List.length_set]; omega)
        rw [List.length_set] at h2
        rw [h2, List.length_cons]
        congr 1
        omega
      · rw [if_neg hlt] at h
        have hieq : i = dts.length := by omega
        have h2 := ih _ _ _ h (by simp [List.length_append]; omega)
        rw [List.length_append, List.length_cons, List.length_nil] at h2
        rw [h2, List.length_cons]
        subst hieq
        rw [Nat.max_eq_right (by omega), Nat.max_eq_right (by omega)]
        omega

lemma applyStatuses_get_high :
    ∀ (segs : List Str) (dts : List Desktop) (i : Nat) (dts' : List Desktop),
      applyStatuses dts i segs = some dts' →
      ∀ j, i + segs.length ≤ j → dts'[j]? = dts[j]? := by
  intro segs
  induction segs with
  | nil =>
    intro dts i dts' h j hj
    unfold applyStatuses at h
    cases h
    rfl
  | cons seg rest ih =>
    intro dts i dts' h j hj
    rw [List.length_cons] at hj
    unfold applyStatuses at h
    cases seg with
    | nil => simp at h
    | cons c cr =>
      simp only [] at h
      by_cases hlt : i < dts.length
      · rw [if_pos hlt] at h
        rw [ih _ _ _ h j (by omega), List.getElem?_set_ne (by omega : i ≠ j)]
      · rw [if_neg hlt] at h
        rw [ih _ _ _ h j (by omega)]
        rw [List.getElem?_append_right (by omega : dts.length ≤ j)]
        rw [List.getElem?_eq_none (by simp; omega), List.getElem?_eq_none (by omega)]

lemma consume_length_mono (wm wm' : WindowManager) (data : Str)
    (h : wm.consume data = some wm') : wm.dtops.length ≤ wm'.dtops.length := by
  unfold WindowManager.consume at h
  cases h1 : findIdxO (· = ':') data with
  | none => rw [h1] at h; simp at h
  | some st =>
    cases h2 : rfindIdxO (· = ':') data with
    | none => rw [h1, h2] at h; simp at h
    | some en =>
      rw [h1, h2] at h
      simp only [] at h
      by_cases hle : st + 1 ≤ en
      · rw [if_pos hle] at h
        cases happ : applyStatuses wm.dtops 0 ((strSlice data (st + 1) en).splitOn ':') with
        | none => rw [happ] at h; simp at h
        | some d' =>
          rw [happ] at h
          cases h
          have := applyStatuses_length _ _ _ _ happ (Nat.zero_le _)
          simp only [Nat.zero_add] at this
          rw [this]
          exact Nat.le_max_left _ _
      · rw [if_neg hle] at h
        simp at h

/-- C6: across every consumed event sequence the desktop list never shrinks,
and a single event reporting `k` status segments overwrites indices `0..k-1`
in place (appending only past the current end), leaving every entry at index
`k` or beyond exactly as it was. -/
theorem c6_thm :
    (∀ (wm : WindowManager) (lines : List Str) (wm' : WindowManager),
      wm.consumeSeq lines = some wm' → wm.dtops.length ≤ wm'.dtops.length) ∧
    (∀ (wm wm' : WindowManager) (data : Str) (st en : Nat),
      wm.consume data = some wm' →
      findIdxO (· = ':') data = some st → rfindIdxO (· = ':') data = some en →
      wm'.dtops.length
          = max wm.dtops.length ((strSlice data (st + 1) en).splitOn ':').length ∧
      ∀ j, ((strSlice data (st + 1) en).splitOn ':').length ≤ j →
        wm'.dtops[j]? = wm.dtops[j]?) := by
  constructor
  · intro wm lines
    induction lines generalizing wm with
    | nil =>
      intro wm' h
      unfold WindowManager.consumeSeq at h
      cases h
      exact Nat.le_refl _
    | cons l ls ih =>
      intro wm' h
      unfold WindowManager.consumeSeq at h
      cases hc : wm.consume l with
      | none => rw [hc] at h; simp at h
      | some w1 =>
        rw [hc] at h
        exact Nat.le_trans (consume_length_mono _ _ _ hc) (ih w1 wm' h)
  · intro wm wm' data st en h h1 h2
    unfold WindowManager.consume at h
    rw [h1, h2] at h
    simp only [] at h
    by_cases hle : st + 1 ≤ en
    · rw [if_pos hle] at h
      cases happ : applyStatuses wm.dtops 0 ((strSlice data (st + 1) en).splitOn ':') with
      | none => rw [happ] at h; simp at h
      | some d' =>
        rw [happ] at h
        cases h
        constructor
        · have := applyStatuses_length _ _ _ _ happ (Nat.zero_le _)
          simpa using this
        · intro j hj
          exact applyStatuses_get_high _ _ _ _ happ j (by omega)
    · rw [if_neg hle] at h
      simp at h

/-- Witness for C6: from three desktops, the event `"WM:o:F:"` (two segments)
overwrites the first two and leaves the third untouched. -/
theorem c6_wit :
    (⟨[⟨false, false⟩, ⟨true, true⟩, ⟨false, true⟩]⟩ : WindowManager).dtops.length ≤
      (⟨[⟨true, false⟩, ⟨false, true⟩, ⟨false, true⟩]⟩ : WindowManager).dtops.length ∧
    (⟨[⟨true, false⟩, ⟨false, true⟩, ⟨false, true⟩]⟩ : WindowManager).dtops.length
        = max (⟨[⟨false, false⟩, ⟨true, true⟩, ⟨false, true⟩]⟩ : WindowManager).dtops.length
            ((strSlice "WM:o:F:".toList (2 + 1) 6).splitOn ':').length ∧
    (⟨[⟨true, false⟩, ⟨false, true⟩, ⟨false, true⟩]⟩ : WindowManager).dtops[2]?
        = (⟨[⟨false, false⟩, ⟨true, true⟩, ⟨false, true⟩]⟩ : WindowManager).dtops[2]? :=
  ⟨c6_thm.1 ⟨[⟨false, false⟩, ⟨true, true⟩, ⟨false, true⟩]⟩ ["WM:o:F:".toList] _ (by decide),
    (c6_thm.2 ⟨[⟨false, false⟩, ⟨true, true⟩, ⟨false, true⟩]⟩
      ⟨[⟨true, false⟩, ⟨false, true⟩, ⟨false, true⟩]⟩ "WM:o:F:".toList 2 6
      (by decide) (by decide) (by decide)).1,
    (c6_thm.2 ⟨[⟨false, false⟩, ⟨true, true⟩, ⟨false, true⟩]⟩
      ⟨[⟨true, false⟩, ⟨false, true⟩, ⟨false, true⟩]⟩ "WM:o:F:".toList 2 6
      (by decide) (by decide) (by decide)).2 2 (by decide)⟩

lemma inRange_left_iff (p : Position) :
    inRange none (some Position.center) p = decide (p.align = Align.Left) := by
  rcases p with ⟨a, s⟩
  cases hc : compare s 0 with
  | lt => exact absurd (Nat.compare_eq_lt.mp hc) (Nat.not_lt_zero s)
  | eq => cases a <;> simp [inRange, posLt, Position.cmpPos, Align.toNat, Position.center, hc]
  | gt => cases a <;> simp [inRange, posLt, Position.cmpPos, Align.toNat, Position.center, hc]

lemma inRange_center_iff (p : Position) :
    inRange (some Position.center) (some Position.right) p = decide (p.align = Align.Center) := by
  rcases p with ⟨a, s⟩
  cases hc : compare s 0 with
  | lt => exact absurd (Nat.compare_eq_lt.mp hc) (Nat.not_lt_zero s)
  | eq => cases a <;>
      simp [inRange, posLt, Position.cmpPos, Align.toNat, Position.center, Position.right, hc]
  | gt => cases a <;>
      simp [inRange, posLt, Position.cmpPos, Align.toNat, Position.center, Position.right, hc]

lemma inRange_right_iff (p : Position) :
    inRange (some Position.right) none p = decide (p.align = Align.Right) := by
  rcases p with ⟨a, s⟩
  cases hc : compare s 0 with
  | lt => exact absurd (Nat.compare_eq_lt.mp hc) (Nat.not_lt_zero s)
  | eq => cases a <;> simp [inRange, posLt, Position.cmpPos, Align.toNat, Position.right, hc]
  | gt => cases a <;> simp [inRange, posLt, Position.cmpPos, Align.toNat, Position.right, hc]

lemma posLt_same_align {p q : Position} (h : p.align = q.align) :
    posLt p q = true ↔ p.slot < q.slot := by
  unfold posLt Position.cmpPos
  rw [h, if_neg (Nat.lt_irrefl _), if_pos rfl]
  cases hc : compare p.slot q.slot with
  | lt => simpa using Nat.compare_eq_lt.mp hc
  | eq =>
    have := Nat.compare_eq_eq.mp hc
    simp only [Bool.false_eq_true, false_iff]
    omega
  | gt =>
    have := Nat.compare_eq_gt.mp hc
    simp only [Bool.false_eq_true, false_iff]
    omega

/-- C2: for every registry state whose entries are strictly ascending in
position order, `flush` emits exactly the three zone markers in the fixed
order Left, Center, Right — each marker before that zone's fragments, even
for an empty zone — with the fragments concatenated zone-major and
slot-ascending, and a single trailing line terminator. -/
theorem c2_thm :
    ∀ elts : List (Position × Str),
      List.Pairwise (fun a b => posLt a.1 b.1 = true) elts →
      (Bar.flush elts =
        "%\x7bl\x7d".toList ++ zoneFrags elts Align.Left
          ++ "%\x7bc\x7d".toList ++ zoneFrags elts Align.Center
          ++ "%\x7br\x7d".toList ++ zoneFrags elts Align.Right ++ ['\n']) ∧
      ∀ z : Align, List.Pairwise (· < ·)
        ((elts.filter (fun e => decide (e.1.align = z))).map (fun e => e.1.slot)) := by
  intro elts hsort
  constructor
  · have hL : rangeElts elts none (some Position.center)
        = elts.filter (fun e => decide (e.1.align = Align.Left)) :=
      List.filter_congr (fun e _ => inRange_left_iff e.1)
    have hC : rangeElts elts (some Position.center) (some Position.right)
        = elts.filter (fun e => decide (e.1.align = Align.Center)) :=
      List.filter_congr (fun e _ => inRange_center_iff e.1)
    have hR : rangeElts elts (some Position.right) none
        = elts.filter (fun e => decide (e.1.align = Align.Right)) :=
      List.filter_congr (fun e _ => inRange_right_iff e.1)
    unfold Bar.flush zoneFrags
    rw [hL, hC, hR]
  · intro z
    rw [List.pairwise_map]
    refine List.Pairwise.imp_of_mem ?_ (hsort.filter _)
    intro a b ha hb hab
    have haz := of_decide_eq_true (List.mem_filter.mp ha).2
    have hbz := of_decide_eq_true (List.mem_filter.mp hb).2
    exact (posLt_same_align (haz.trans hbz.symm)).mp hab

/-- Registry state of the C2 witness: two left entries, an empty center zone,
one right entry. -/
def c2elts : List (Position × Str) :=
  [({ align := Align.Left, slot := 0 }, "A".toList),
   ({ align := Align.Left, slot := 2 }, "B".toList),
   ({ align := Align.Right, slot := 1 }, "C".toList)]

/-- Witness for C2 on a three-entry registry with an empty center zone. -/
theorem c2_wit :
    (Bar.flush c2elts =
      "%\x7bl\x7d".toList ++ zoneFrags c2elts Align.Left
        ++ "%\x7bc\x7d".toList ++ zoneFrags c2elts Align.Center
        ++ "%\x7br\x7d".toList ++ zoneFrags c2elts Align.Right ++ ['\n']) ∧
    List.Pairwise (· < ·)
      ((c2elts.filter (fun e => decide (e.1.align = Align.Left))).map (fun e => e.1.slot)) :=
  ⟨(c2_thm c2elts (by decide)).1, (c2_thm c2elts (by decide)).2 Align.Left⟩

lemma splitWSAux_nonws :
    ∀ (s acc : Str), (∀ c ∈ s, c.isWhitespace = false) →
      splitWSAux s acc = if (acc.reverse ++ s).isEmpty then [] else [acc.reverse ++ s] := by
  intro s
  induction s with
  | nil =>
    intro acc _
    simp only [splitWSAux, List.append_nil]
    cases acc <;> simp
  | cons c cs ih =>
    intro acc hs
    have hc : c.isWhitespace = false := hs c (by simp)
    simp only [splitWSAux, hc, Bool.false_eq_true, if_false]
    rw [ih (c :: acc) (fun d hd => hs d (by simp [hd]))]
    simp [List.append_assoc]

lemma splitWSAux_break (b : Str) :
    ∀ (a acc : Str), (∀ c ∈ a, c.isWhitespace = false) →
      splitWSAux (a ++ ' ' :: b) acc =
        if (acc.reverse ++ a).isEmpty then splitWSAux b []
        else (acc.reverse ++ a) :: splitWSAux b [] := by
  intro a
  induction a with
  | nil =>
    intro acc _
    simp only [List.nil_append, splitWSAux, List.append_nil]
    rw [if_pos (by decide)]
    cases acc <;> simp
  | cons c cs ih =>
    intro acc hs
    have hc : c.isWhitespace = false := hs c (by simp)
    simp only [List.cons_append, splitWSAux, hc, Bool.false_eq_true, if_false,
      List.append_eq]
    rw [ih (c :: acc) (fun d hd => hs d (by simp [hd]))]
    simp [List.append_assoc]

lemma splitWS_single (s : Str) (h : ∀ c ∈ s, c.isWhitespace = false) (hne : s ≠ []) :
    splitWS s = [s] := by
  unfold splitWS
  rw [splitWSAux_nonws s [] h]
  cases s with
  | nil => exact absurd rfl hne
  | cons c cs => simp

lemma splitWS_pair (a b : Str) (ha : ∀ c ∈ a, c.isWhitespace = false)
    (hb : ∀ c ∈ b, c.isWhitespace = false) (hnea : a ≠ []) (hneb : b ≠ []) :
    splitWS (a ++ ' ' :: b) = [a, b] := by
  unfold splitWS
  rw [splitWSAux_break b a [] ha]
  have hsb : splitWSAux b [] = [b] := splitWS_single b hb hneb
  cases a with
  | nil => exact absurd rfl hnea
  | cons c cs => simp [hsb]

lemma findIdxO_eq_none_iff (p : Char → Bool) :
    ∀ s : Str, findIdxO p s = none ↔ ∀ c ∈ s, p c = false := by
  intro s
  induction s with
  | nil => simp [findIdxO]
  | cons c cs ih =>
    by_cases h : p c <;> simp [findIdxO, h, ih]

lemma rfindIdxO_eq_none_iff (p : Char → Bool) (s : Str) :
    rfindIdxO p s = none ↔ ∀ c ∈ s, p c = false := by
  unfold rfindIdxO
  rw [Option.map_eq_none', findIdxO_eq_none_iff]
  simp

lemma rfindIdxO_append_last (p : Char → Bool) (s : Str) (a : Char)
    (hpa : p a = true) : rfindIdxO p (s ++ [a]) = some s.length := by
  unfold rfindIdxO
  rw [List.reverse_append]
  simp [findIdxO, hpa]

lemma dropWhile_all_false {p : Char → Bool} :
    ∀ s : Str, (∀ c ∈ s, p c = false) → s.dropWhile p = s := by
  intro s h
  cases s with
  | nil => rfl
  | cons c cs => simp [List.dropWhile_cons, h c (by simp)]

lemma trim_nonws (s : Str) (h : ∀ c ∈ s, c.isWhitespace = false) : trim s = s := by
  unfold trim
  rw [dropWhile_all_false s h,
    dropWhile_all_false s.reverse (fun c hc => h c (List.mem_reverse.mp hc)),
    List.reverse_reverse]

lemma digits_not_ws {s : Str} (h : ∀ c ∈ s, c ∈ "0123456789".toList) :
    ∀ c ∈ s, c.isWhitespace = false := by
  intro c hc
  have hd := h c hc
  fin_cases hd <;> decide

lemma digits_pred_false {s : Str} (h : ∀ c ∈ s, c ∈ "0123456789".toList)
    (d : Char) (hd : d.isDigit = false) : ∀ c ∈ s, decide (c = d) = false := by
  intro c hc
  have hcd := h c hc
  simp only [decide_eq_false_iff_not]
  intro heq
  subst heq
  fin_cases hcd <;> exact absurd hd (by decide)

lemma batTimeStep_hour (time hs : Str) :
    batTimeStep time (hs ++ ['h']) = time ++ hs := by
  unfold batTimeStep
  rw [rfindIdxO_append_last _ hs 'h' (by decide)]
  simp only []
  rw [List.take_left]

lemma batTimeStep_minute (time ms : Str) (hd : ∀ c ∈ ms, c ∈ "0123456789".toList) :
    batTimeStep time (ms ++ ['m'])
      = time ++ [':'] ++ (if ms.length < 2 then ['0'] else []) ++ ms := by
  unfold batTimeStep
  have h1 : rfindIdxO (· = 'h') (ms ++ ['m']) = none := by
    rw [rfindIdxO_eq_none_iff]
    intro c hc
    rcases List.mem_append.mp hc with h2 | h2
    · exact digits_pred_false hd 'h' (by decide) c h2
    · simp at h2; subst h2; decide
  rw [h1, rfindIdxO_append_last _ ms 'm' (by decide)]
  simp only [List.take_left, trim_nonws ms (digits_not_ws hd)]

/-- C3: battery-time parsing maps `"3h 45m"` to `"3:45"`, `"5m"` to `":05"`
and `"2h"` to `"2"`; in general the digits of an hour token (ending in `h`)
are copied verbatim, the digits of a minute token (ending in `m`) are
zero-padded to two digits and prefixed with `:`, and an absent token simply
omits its segment. -/
theorem c3_thm :
    ∀ hs ms : Str, hs ≠ [] → ms ≠ [] →
      (∀ c ∈ hs, c ∈ "0123456789".toList) → (∀ c ∈ ms, c ∈ "0123456789".toList) →
      parse_bat_time "3h 45m".toList = "3:45".toList ∧
      parse_bat_time "5m".toList = ":05".toList ∧
      parse_bat_time "2h".toList = "2".toList ∧
      parse_bat_time (hs ++ ['h']) = hs ∧
      parse_bat_time (ms ++ ['m']) = ':' :: ((if ms.length < 2 then ['0'] else []) ++ ms) ∧
      parse_bat_time ((hs ++ ['h']) ++ ' ' :: (ms ++ ['m']))
        = hs ++ ':' :: ((if ms.length < 2 then ['0'] else []) ++ ms) := by
  intro hs ms hneh hnem hdh hdm
  have htoknw : ∀ c ∈ hs ++ ['h'], c.isWhitespace = false := by
    intro c hc
    rcases List.mem_append.mp hc with h1 | h1
    · exact digits_not_ws hdh c h1
    · simp at h1; subst h1; decide
  have mtoknw : ∀ c ∈ ms ++ ['m'], c.isWhitespace = false := by
    intro c hc
    rcases List.mem_append.mp hc with h1 | h1
    · exact digits_not_ws hdm c h1
    · simp at h1; subst h1; decide
  refine ⟨by decide, by decide, by decide, ?_, ?_, ?_⟩
  · unfold parse_bat_time
    rw [splitWS_single (hs ++ ['h']) htoknw (by simp)]
    simp only [List.foldl_cons, List.foldl_nil]
    rw [batTimeStep_hour [] hs]
    simp
  · unfold parse_bat_time
    rw [splitWS_single (ms ++ ['m']) mtoknw (by simp)]
    simp only [List.foldl_cons, List.foldl_nil]
    rw [batTimeStep_minute [] ms hdm]
    simp
  · unfold parse_bat_time
    rw [splitWS_pair (hs ++ ['h']) (ms ++ ['m']) htoknw mtoknw (by simp) (by simp)]
    simp only [List.foldl_cons, List.foldl_nil]
    rw [batTimeStep_hour [] hs, batTimeStep_minute ([] ++ hs) ms hdm]
    simp

/-- Witness for C3 at hour digits `12` and minute digits `7`. -/
theorem c3_wit :
    parse_bat_time ("12".toList ++ ['h']) = "12".toList ∧
    parse_bat_time ("7".toList ++ ['m'])
      = ':' :: ((if ("7".toList : Str).length < 2 then ['0'] else []) ++ "7".toList) ∧
    parse_bat_time (("12".toList ++ ['h']) ++ ' ' :: ("7".toList ++ ['m']))
      = "12".toList ++ ':' :: ((if ("7".toList : Str).length < 2 then ['0'] else []) ++ "7".toList) :=
  ⟨(c3_thm "12".toList "7".toList (by decide) (by decide) (by decide) (by decide)).2.2.2.1,
   (c3_thm "12".toList "7".toList (by decide) (by decide) (by decide) (by decide)).2.2.2.2.1,
   (c3_thm "12".toList "7".toList (by decide) (by decide) (by decide) (by decide)).2.2.2.2.2⟩

/-- Well-formedness of a window-manager event, read off from the unchecked
assumptions of `WindowManager::consume`: the line is WM-owned, holds two
distinct `:` delimiters, and every status segment between them is nonempty. -/
def wmWellFormed (data : Str) : Bool :=
  WindowManager.is_data data &&
  match findIdxO (· = ':') data, rfindIdxO (· = ':') data with
  | some st, some en =>
    decide (st + 1 ≤ en) &&
      ((strSlice data (st + 1) en).splitOn ':').all (fun seg => !seg.isEmpty)
  | _, _ => false

/-- Well-formedness of a telemetry line, read off from the unchecked
assumptions of `System::consume`: the line is system-owned, holds an `=`, and
the value satisfies the parse assumptions of its key. -/
def sysWellFormed (data : Str) : Bool :=
  System.is_data data &&
  match findIdxO (· = '=') data with
  | none => false
  | some mid =>
    let key := trim (data.take mid)
    let val := trim (data.drop (mid + 1))
    if key = "BAT_TIME".toList then true
    else if key = "BAT_STATUS".toList then !val.isEmpty && (batPctOfVal val).isSome
    else if key = "TIME".toList then true
    else if key = "DATE".toList then true
    else if key = "TEMP".toList then (parseUsize val).isSome
    else if key = "CPU".toList then
      ((splitWS val).take 4).all (fun t => (parseUsize t).isSome)
    else if key = "CPU_FREQ".toList then
      ((splitWS val).take 4).all (fun t => (parseF32 t).isSome)
    else true

lemma applyStatuses_isSome :
    ∀ (segs : List Str) (dts : List Desktop) (i : Nat),
      (∀ seg ∈ segs, seg ≠ []) → (applyStatuses dts i segs).isSome = true := by
  intro segs
  induction segs with
  | nil => intro dts i _; rfl
  | cons seg rest ih =>
    intro dts i hall
    unfold applyStatuses
    cases seg with
    | nil => exact absurd rfl (hall [] (by simp))
    | cons c cr =>
      simp only []
      exact ih _ _ (fun s hs => hall s (by simp [hs]))

lemma setParsed_isSome {α : Type} (parse : Str → Option α) :
    ∀ (toks : List Str) (arr : List α) (i : Nat),
      (∀ t ∈ toks, (parse t).isSome = true) → (setParsed parse arr i toks).isSome = true := by
  intro toks
  induction toks with
  | nil => intro arr i _; rfl
  | cons t rest ih =>
    intro arr i hall
    unfold setParsed
    cases hp : parse t with
    | none =>
      have := hall t (by simp)
      rw [hp] at this
      simp at this
    | some v => exact ih _ _ (fun s hs => hall s (by simp [hs]))

/-- C8: malformed lines are fatal and well-formed lines are not — concretely,
`System::consume` panics on a line with no `=`, on a non-numeric `TEMP`
value, on a `BAT_STATUS` value with no `%` and on one with no digit, and
`WindowManager::consume` panics on a WM line with no `:` and on one with an
empty status segment; conversely every line satisfying its tracker's
well-formedness predicate is consumed without panic. -/
theorem c8_thm :
    System.consume System.default "STATUS NO EQUALS".toList = none ∧
    System.consume System.default "TEMP = warm".toList = none ∧
    System.consume System.default "BAT_STATUS= D 80".toList = none ∧
    System.consume System.default "BAT_STATUS= Full".toList = none ∧
    WindowManager.consume ⟨[]⟩ "WM no colon".toList = none ∧
    WindowManager.consume ⟨[]⟩ "WM::".toList = none ∧
    (∀ (sys : System) (data : Str), sysWellFormed data = true →
      (System.consume sys data).isSome = true) ∧
    (∀ (wm : WindowManager) (data : Str), wmWellFormed data = true →
      (wm.consume data).isSome = true) := by
  refine ⟨by decide, by decide, by decide, by decide, by decide, by decide, ?_, ?_⟩
  · intro sys data h
    unfold sysWellFormed at h
    rw [Bool.and_eq_true] at h
    obtain ⟨-, h⟩ := h
    unfold System.consume
    cases hf : findIdxO (· = '=') data with
    | none => rw [hf] at h; simp at h
    | some mid =>
      rw [hf] at h
      simp only [] at h ⊢
      by_cases h1 : trim (data.take mid) = "BAT_TIME".toList
      · rw [if_pos h1]; rfl
      · rw [if_neg h1] at h ⊢
        by_cases h2 : trim (data.take mid) = "BAT_STATUS".toList
        · rw [if_pos h2] at h ⊢
          rw [Bool.and_eq_true] at h
          obtain ⟨hv, hp⟩ := h
          cases hval : trim (data.drop (mid + 1)) with
          | nil => rw [hval] at hv; simp at hv
          | cons c r =>
            rw [hval] at hp
            cases hbp : batPctOfVal (c :: r) with
            | none => rw [hbp] at hp; simp at hp
            | some n => simp [hbp]
        · rw [if_neg h2] at h ⊢
          by_cases h3 : trim (data.take mid) = "TIME".toList
          · rw [if_pos h3]; rfl
          · rw [if_neg h3] at h ⊢
            by_cases h4 : trim (data.take mid) = "DATE".toList
            · rw [if_pos h4]; rfl
            · rw [if_neg h4] at h ⊢
              by_cases h5 : trim (data.take mid) = "TEMP".toList
              · rw [if_pos h5] at h ⊢
                cases hp : parseUsize (trim (data.drop (mid + 1))) with
                | none => rw [hp] at h; simp at h
                | some n => simp
              · rw [if_neg h5] at h ⊢
                by_cases h6 : trim (data.take mid) = "CPU".toList
                · rw [if_pos h6] at h ⊢
                  have := setParsed_isSome parseUsize
                      ((splitWS (trim (data.drop (mid + 1)))).take 4) sys.cpu.usage 0
                      (by
                        intro t ht
                        exact (List.all_eq_true.mp h) t ht)
                  cases hsp : setParsed parseUsize sys.cpu.usage 0
                      ((splitWS (trim (data.drop (mid + 1)))).take 4) with
                  | none => rw [hsp] at this; simp at this
                  | some u => simp
                · rw [if_neg h6] at h ⊢
                  by_cases h7 : trim (data.take mid) = "CPU_FREQ".toList
                  · rw [if_pos h7] at h ⊢
                    have := setParsed_isSome parseF32
                        ((splitWS (trim (data.drop (mid + 1)))).take 4) sys.cpu.freq 0
                        (by
                          intro t ht
                          exact (List.all_eq_true.mp h) t ht)
                    cases hsp : setParsed parseF32 sys.cpu.freq 0
                        ((splitWS (trim (data.drop (mid + 1)))).take 4) with
                    | none => rw [hsp] at this; simp at this
                    | some u => simp
                  · rw [if_neg h7]; rfl
  · intro wm data h
    unfold wmWellFormed at h
    rw [Bool.and_eq_true] at h
    obtain ⟨-, h⟩ := h
    unfold WindowManager.consume
    cases h1 : findIdxO (· = ':') data with
    | none => rw [h1] at h; simp at h
    | some st =>
      cases h2 : rfindIdxO (· = ':') data with
      | none => rw [h1, h2] at h; simp at h
      | some en =>
        rw [h1, h2] at h
        simp only [] at h ⊢
        rw [Bool.and_eq_true] at h
        obtain ⟨hle, hall⟩ := h
        rw [if_pos (of_decide_eq_true hle)]
        have hsome := applyStatuses_isSome ((strSlice data (st + 1) en).splitOn ':')
            wm.dtops 0
            (by
              intro seg hseg
              have := (List.all_eq_true.mp hall) seg hseg
              simpa using this)
        cases happ : applyStatuses wm.dtops 0 ((strSlice data (st + 1) en).splitOn ':') with
        | none => rw [happ] at hsome; simp at hsome
        | some d' => simp [happ]

/-- Witness for C8 at the well-formed lines `"TEMP = 42"` and `"WM:Of:"`. -/
theorem c8_wit :
    sysWellFormed "TEMP = 42".toList = true ∧
    (System.consume System.default "TEMP = 42".toList).isSome = true ∧
    wmWellFormed "WM:Of:".toList = true ∧
    (WindowManager.consume ⟨[]⟩ "WM:Of:".toList).isSome = true :=
  ⟨by decide, c8_thm.2.2.2.2.2.2.1 System.default "TEMP = 42".toList (by decide),
   by decide, c8_thm.2.2.2.2.2.2.2 ⟨[]⟩ "WM:Of:".toList (by decide)⟩
